import Mathlib

/-!
Verification of the RAG core of the Campus Intelligent Q&A System.

Conventions of the embedding:
* Python strings are modelled as lists of their characters (`PyStr`), so
  slicing, length and concatenation coincide with Python code-point
  semantics.
* Scores and delays (Python floats) are modelled as rationals.
* Every external service (vector store, embedding backend, chat backend,
  remote rerank endpoint, document storage, clock) is an explicit oracle
  parameter, and a call that may raise is modelled with `Except`/`Option`.
* Python dicts used as caches or status sinks are modelled as association
  lists with first-match lookup.
-/

namespace CampusQA

/-- Python strings modelled as their list of characters. -/
abbrev PyStr := List Char

/-- Chunk metadata written by `load_documents` (`{"chunk_id": idx, "ext": ext}`). -/
structure ChunkMeta where
  chunkId : Nat
  ext : PyStr
  deriving Repr, DecidableEq

/-- Model of `app/models.py` `DocumentChunk`. -/
structure DocumentChunk where
  id : PyStr
  text : PyStr
  source : PyStr
  sourceType : PyStr
  url : Option PyStr
  metadata : Option ChunkMeta
  deriving Repr, DecidableEq

/-- Model of `app/models.py` `RetrievedChunk` (score is a Python float, modelled as `ℚ`). -/
structure RetrievedChunk where
  chunk : DocumentChunk
  score : ℚ
  deriving Repr, DecidableEq

/-- Model of `app/models.py` `SourceAttribution`. -/
structure SourceAttribution where
  source : PyStr
  snippet : PyStr
  score : ℚ
  deriving Repr, DecidableEq

/-- Model of `app/models.py` `QueryRequest`. -/
structure QueryRequest where
  query : PyStr
  topK : Option Nat
  maxTokens : Option Nat
  streaming : Bool
  sessionId : Option PyStr
  deriving Repr, DecidableEq

/-- Model of `app/models.py` `QueryResponse`. -/
structure QueryResponse where
  answer : PyStr
  sources : List SourceAttribution
  latencyMs : ℚ
  deriving Repr, DecidableEq

/-!
Section: Chunker (`app/rag.py`, `chunk_text`)

The Python loop

```
start = 0
while start < len(text):
    end = min(start + chunk_size, len(text))
    chunks.append(text[start:end])
    if end == len(text):
        break
    start = end - overlap
```

is embedded with an explicit fuel argument (the loop has no structural
measure for arbitrary `overlap`); `text.length + 1` fuel is proved
sufficient whenever `overlap < chunk_size`, which is exactly the
termination fact claimed for the loop.
-/

/-- One iteration layer of the `chunk_text` loop, computing the
`(start, end)` window spans; `fuel` bounds the number of iterations. -/
def chunkSpansAux (len chunkSize overlap : Nat) : Nat → Nat → List (Nat × Nat)
  | 0, _ => []
  | fuel + 1, start =>
    if start < len then
      if min (start + chunkSize) len = len then
        [(start, min (start + chunkSize) len)]
      else
        (start, min (start + chunkSize) len) ::
          chunkSpansAux len chunkSize overlap fuel (min (start + chunkSize) len - overlap)
    else []

/-- The window spans produced by the `chunk_text` loop. -/
def chunkSpans (len chunkSize overlap : Nat) : List (Nat × Nat) :=
  chunkSpansAux len chunkSize overlap (len + 1) 0

/-- Model of `app/rag.py` `chunk_text`: each span `(a, b)` yields the slice `text[a:b]`. -/
def chunk_text (text : PyStr) (chunkSize overlap : Nat) : List PyStr :=
  (chunkSpans text.length chunkSize overlap).map fun p => (text.drop p.1).take (p.2 - p.1)

theorem chunkSpansAux_spec (len s o : Nat) (hs : 0 < s) (ho : o < s) :
    ∀ fuel start, start < len → len - start ≤ fuel →
      chunkSpansAux len s o fuel start ≠ [] ∧
      (chunkSpansAux len s o fuel start).head?.map Prod.fst = some start ∧
      (∀ p ∈ chunkSpansAux len s o fuel start, p.2 = min (p.1 + s) len ∧ p.1 < p.2) ∧
      List.Chain' (fun a b => b.1 = a.2 - o) (chunkSpansAux len s o fuel start) ∧
      (∃ a, (chunkSpansAux len s o fuel start).getLast? = some (a, len)) := by
  intro fuel
  induction fuel with
  | zero => intro start h1 h2; omega
  | succ f ih =>
    intro start h1 h2
    simp only [chunkSpansAux, if_pos h1]
    by_cases he : min (start + s) len = len
    · rw [if_pos he]
      refine ⟨by simp, by simp, ?_, by simp,
        ⟨start, by rw [List.getLast?_singleton, he]⟩⟩
      intro p hp
      simp only [List.mem_singleton] at hp
      subst hp
      exact ⟨rfl, by rw [he]; exact h1⟩
    · have hend : start + s < len := by
        rcases Nat.lt_or_ge (start + s) len with h | h
        · exact h
        · exact absurd (Nat.min_eq_right h) he
      have hmin : min (start + s) len = start + s := Nat.min_eq_left (Nat.le_of_lt hend)
      have h1' : start + s - o < len := by omega
      have h2' : len - (start + s - o) ≤ f := by omega
      obtain ⟨hne, hhead, hall, hchain, a, hlast⟩ := ih (start + s - o) h1' h2'
      rw [if_neg he, hmin]
      refine ⟨by simp, by simp, ?_, ?_, ?_⟩
      · intro p hp
        rcases List.mem_cons.mp hp with hp | hp
        · subst hp
          exact ⟨hmin.symm, by omega⟩
        · exact hall p hp
      · rw [List.chain'_cons']
        refine ⟨?_, hchain⟩
        intro b hb
        cases hrest : (chunkSpansAux len s o f (start + s - o)).head? with
        | none => rw [hrest] at hb; exact absurd hb (Option.not_mem_none b)
        | some x =>
          rw [hrest] at hb
          simp only [Option.mem_def, Option.some.injEq] at hb
          subst hb
          rw [hrest] at hhead
          simp only [Option.map_some', Option.some.injEq] at hhead
          omega
      · cases hrec : chunkSpansAux len s o f (start + s - o) with
        | nil => exact absurd hrec hne
        | cons x xs =>
          rw [hrec] at hlast
          exact ⟨a, by rw [List.getLast?_cons_cons]; exact hlast⟩

theorem chunkSpansAux_fuel (len s o : Nat) (ho : o < s) :
    ∀ f1 f2 start, len - start ≤ f1 → len - start ≤ f2 →
      chunkSpansAux len s o f1 start = chunkSpansAux len s o f2 start := by
  intro f1
  induction f1 with
  | zero =>
    intro f2 start h1 h2
    have hge : ¬ start < len := by omega
    cases f2 <;> simp [chunkSpansAux, hge]
  | succ f ihf =>
    intro f2 start h1 h2
    by_cases hlt : start < len
    · cases f2 with
      | zero => omega
      | succ g =>
        simp only [chunkSpansAux, if_pos hlt]
        by_cases he : min (start + s) len = len
        · simp [he]
        · have hend : start + s < len := by
            rcases Nat.lt_or_ge (start + s) len with h | h
            · exact h
            · exact absurd (Nat.min_eq_right h) he
          have hmin : min (start + s) len = start + s := Nat.min_eq_left (Nat.le_of_lt hend)
          simp only [if_neg he]
          rw [ihf g (min (start + s) len - o) (by omega) (by omega)]
    · cases f2 <;> simp [chunkSpansAux, hlt]

/-- Interface of claim C1: windows are ordered, the first starts at 0, each
subsequent window starts `overlap` characters before the previous window
ends, every window is a non-empty slice of at most `chunkSize` characters,
the last window ends at the text length, and any fuel of at least the text
length reproduces the result (the loop terminates by its own break). -/
def chunkCoverageSpec (text : PyStr) (s o : Nat) : Prop :=
  chunkSpans text.length s o ≠ [] ∧
  (chunkSpans text.length s o).head?.map Prod.fst = some 0 ∧
  List.Chain' (fun a b => b.1 = a.2 - o) (chunkSpans text.length s o) ∧
  (∀ p ∈ chunkSpans text.length s o, p.1 < p.2 ∧ p.2 - p.1 ≤ s ∧ p.2 ≤ text.length) ∧
  (∃ a, (chunkSpans text.length s o).getLast? = some (a, text.length)) ∧
  chunk_text text s o =
    (chunkSpans text.length s o).map (fun p => (text.drop p.1).take (p.2 - p.1)) ∧
  (∀ c ∈ chunk_text text s o, c ≠ [] ∧ c.length ≤ s) ∧
  (∀ fuel, text.length ≤ fuel →
    chunkSpansAux text.length s o fuel 0 = chunkSpans text.length s o)

/-- Claim C1: for every chunk size `s > 0`, overlap `0 ≤ o < s` and non-empty
text, `chunk_text` terminates and returns ordered windows covering the text
with no gaps: first window at position 0, each subsequent window starting
exactly `o` characters before the previous window's end, every window
non-empty of length at most `s`, and the final window ending at the text
length. -/
theorem chunk_text_covers (text : PyStr) (s o : Nat)
    (hs : 0 < s) (ho : o < s) (hne : text ≠ []) :
    chunkCoverageSpec text s o := by
  have hlen : 0 < text.length := List.length_pos.mpr hne
  obtain ⟨h1, h2, h3, h4, h5⟩ :=
    chunkSpansAux_spec text.length s o hs ho (text.length + 1) 0 hlen (by omega)
  have hspans :
      ∀ p ∈ chunkSpans text.length s o,
        p.1 < p.2 ∧ p.2 - p.1 ≤ s ∧ p.2 ≤ text.length := by
    intro p hp
    obtain ⟨hmin, hlt⟩ := h3 p hp
    refine ⟨hlt, ?_, ?_⟩ <;> omega
  refine ⟨h1, h2, h4, hspans, h5, rfl, ?_, ?_⟩
  · intro c hc
    simp only [chunk_text, List.mem_map] at hc
    obtain ⟨p, hp, hcp⟩ := hc
    obtain ⟨hlt, hle, hub⟩ := hspans p hp
    have hclen : c.length = p.2 - p.1 := by
      subst hcp
      simp only [List.length_take, List.length_drop]
      omega
    constructor
    · intro hnil
      rw [hnil] at hclen
      simp only [List.length_nil] at hclen
      omega
    · omega
  · intro fuel hfuel
    exact chunkSpansAux_fuel text.length s o ho fuel (text.length + 1) 0 (by omega) (by omega)

/-- Witness for C1 at a concrete text, chunk size 4 and overlap 1. -/
theorem chunk_text_covers_witness :
    0 < 4 ∧ 1 < 4 ∧ "hi there".toList ≠ [] ∧ chunkCoverageSpec "hi there".toList 4 1 :=
  ⟨by decide, by decide, by decide, chunk_text_covers "hi there".toList 4 1
    (by decide) (by decide) (by decide)⟩

/-!
Section: Context builder (`app/rag.py`, `RAGPipeline._build_context`)

The loop collects `f"[来源:{source}] {text}\n"` snippets while the running
sum of snippet lengths stays within `max_chars`, then returns
`"\n".join(parts)`.
-/

/-- The snippet built for one retrieved chunk. -/
def buildLine (item : RetrievedChunk) : PyStr :=
  "[来源:".toList ++ item.chunk.source ++ "] ".toList ++ item.chunk.text ++ "\n".toList

/-- The collecting loop of `_build_context`: `currentLen` is the running sum
of the lengths of the snippets kept so far. -/
def buildContextParts (maxChars : Nat) : List RetrievedChunk → Nat → List PyStr
  | [], _ => []
  | item :: rest, currentLen =>
    if maxChars < currentLen + (buildLine item).length then []
    else buildLine item :: buildContextParts maxChars rest (currentLen + (buildLine item).length)

/-- Python `"\n".join`. -/
def joinNl : List PyStr → PyStr
  | [] => []
  | [x] => x
  | x :: y :: xs => x ++ '\n' :: joinNl (y :: xs)

/-- Model of `RAGPipeline._build_context`. -/
def build_context (chunks : List RetrievedChunk) (maxChars : Nat) : PyStr :=
  joinNl (buildContextParts maxChars chunks 0)

/-- Sum of the lengths of a list of strings. -/
def sumLens (l : List PyStr) : Nat := (l.map List.length).sum

theorem sumLens_nil : sumLens [] = 0 := rfl

theorem sumLens_cons (a : PyStr) (l : List PyStr) :
    sumLens (a :: l) = a.length + sumLens l := by
  simp [sumLens]

theorem joinNl_length : ∀ l : List PyStr, (joinNl l).length = sumLens l + l.length - 1 := by
  intro l
  induction l with
  | nil => rfl
  | cons x xs ih =>
    cases xs with
    | nil => simp [joinNl, sumLens]
    | cons y ys =>
      simp only [joinNl, List.length_append, List.length_cons, ih, sumLens_cons]
      have : 1 ≤ sumLens (y :: ys) + (ys.length + 1) := by
        rw [sumLens_cons]; omega
      omega

theorem buildContextParts_take (maxChars : Nat) :
    ∀ (chunks : List RetrievedChunk) (cur : Nat),
      ∃ n, n ≤ chunks.length ∧
        buildContextParts maxChars chunks cur = (chunks.map buildLine).take n ∧
        (n = 0 ∨ cur + sumLens ((chunks.map buildLine).take n) ≤ maxChars) ∧
        (n < chunks.length →
          maxChars < cur + sumLens ((chunks.map buildLine).take (n + 1))) := by
  intro chunks
  induction chunks with
  | nil => intro cur; exact ⟨0, by simp, by simp [buildContextParts], Or.inl rfl, by simp⟩
  | cons item rest ih =>
    intro cur
    by_cases hover : maxChars < cur + (buildLine item).length
    · refine ⟨0, by simp, ?_, Or.inl rfl, ?_⟩
      · simp [buildContextParts, hover]
      · intro _
        simpa [sumLens_cons] using hover
    · obtain ⟨n, hn, heq, hsum, hmax⟩ := ih (cur + (buildLine item).length)
      refine ⟨n + 1, by simpa using hn, ?_, ?_, ?_⟩
      · simp only [buildContextParts, if_neg hover, List.map_cons, List.take_succ_cons]
        rw [heq]
      · right
        rcases hsum with h0 | hle
        · subst h0
          simp only [List.map_cons, List.take_succ_cons, List.take_zero, sumLens_cons,
            sumLens_nil]
          omega
        · simp only [List.map_cons, List.take_succ_cons, sumLens_cons]
          omega
      · intro hlt
        have hlt2 : n < rest.length := by simpa using hlt
        have := hmax hlt2
        simp only [List.map_cons, List.take_succ_cons, sumLens_cons]
        omega

/-- Interface of the amended claim C8: the returned context is the
`"\n"`-join of an order-preserving maximal prefix of the snippet lines: the
first dropped line is exactly the one that would push the running sum of
line lengths beyond `max_chars` (and everything after it is dropped too);
the sum of the kept line lengths never exceeds `max_chars`, and the joined
text exceeds it by at most one separator per additional kept line. -/
def buildContextSpec (chunks : List RetrievedChunk) (maxChars : Nat) : Prop :=
  ∃ n, n ≤ chunks.length ∧
    buildContextParts maxChars chunks 0 = (chunks.map buildLine).take n ∧
    sumLens ((chunks.map buildLine).take n) ≤ maxChars ∧
    (n < chunks.length → maxChars < sumLens ((chunks.map buildLine).take (n + 1))) ∧
    build_context chunks maxChars = joinNl ((chunks.map buildLine).take n) ∧
    (build_context chunks maxChars).length ≤ maxChars + n - 1

/-- Amended claim C8: `_build_context` keeps the greedy order-preserving
prefix of `"[来源:{source}] {text}\n"` lines whose summed lengths fit in
`max_chars` (an overflowing line is dropped entirely, never truncated), but
the returned text is the newline-JOIN of those lines, so its total length
can exceed `max_chars` by up to `n - 1` separator characters for `n` kept
lines. -/
theorem build_context_greedy (chunks : List RetrievedChunk) (maxChars : Nat) :
    buildContextSpec chunks maxChars := by
  obtain ⟨n, hn, heq, hsum, hmax⟩ := buildContextParts_take maxChars chunks 0
  have hsum0 : sumLens ((chunks.map buildLine).take n) ≤ maxChars := by
    rcases hsum with h0 | hle
    · subst h0; simp [sumLens]
    · simpa using hle
  refine ⟨n, hn, heq, hsum0, ?_, ?_, ?_⟩
  · intro hlt
    simpa using hmax hlt
  · rw [build_context, heq]
  · rw [build_context, heq, joinNl_length]
    have hlen : ((chunks.map buildLine).take n).length = n := by
      rw [List.length_take]
      simp only [List.length_map]
      omega
    rw [hlen]
    omega

/-- The hit used in the C8 counterexample: source `"s"`, text `"t"`, so its
snippet line `"[来源:s] t\n"` is 9 characters long. -/
def c8hit : RetrievedChunk :=
  ⟨⟨"c-0".toList, "t".toList, "s".toList, "file".toList, none, none⟩, 1⟩

/-- Counterexample to claim C8 as stated: with two 9-character lines and
`max_chars = 18` the loop keeps both lines (their summed length is exactly
18), but the returned text is 19 characters long — the join inserts a
separator — so it is neither the plain concatenation of the lines nor
bounded by `max_chars`. -/
theorem build_context_exceeds_max_chars :
    (build_context [c8hit, c8hit] 18).length = 19 ∧
    18 < (build_context [c8hit, c8hit] 18).length ∧
    build_context [c8hit, c8hit] 18 ≠ ([c8hit, c8hit].map buildLine).flatten := by
  refine ⟨by decide, by decide, by decide⟩

/-!
Section: Document loading (`app/rag.py`, `extract_text_from_bytes`, `load_documents`)
-/

/-- Python `str.strip()`. -/
def pyStrip (s : PyStr) : PyStr :=
  ((s.dropWhile Char.isWhitespace).reverse.dropWhile Char.isWhitespace).reverse

/-- Python `str.lower()`. -/
def pyLower (s : PyStr) : PyStr := s.map Char.toLower

/-- Python `str.rfind('.')`: index of the last dot, if any. -/
def rfindDot (s : PyStr) : Option Nat :=
  (s.reverse.indexOf? '.').map fun j => s.length - 1 - j

/-- Model of `pathlib.PurePath(name).suffix` for names without path separators. -/
def pySuffix (name : PyStr) : PyStr :=
  match rfindDot name with
  | some i => if 0 < i ∧ i + 1 < name.length then name.drop i else []
  | none => []

/-- Model of `pathlib.PurePath(name).stem` for names without path separators. -/
def pyStem (name : PyStr) : PyStr :=
  match rfindDot name with
  | some i => if 0 < i ∧ i + 1 < name.length then name.take i else name
  | none => name

/-- Model of `app/rag.py` `ALLOWED_DOC_EXTS`. -/
def ALLOWED_DOC_EXTS : List PyStr :=
  [".txt".toList, ".md".toList, ".pdf".toList, ".docx".toList, ".xlsx".toList]

/-- Model of `extract_text_from_bytes`.  For `.txt`/`.md`, utf-8 decoding of the
stored bytes is modelled as the identity on the decoded text; the
`.pdf`/`.docx`/`.xlsx` branches drive external parsing libraries, modelled
by the oracle `parse` (applied to the lowered extension and the content).
Unsupported extensions yield the empty text. -/
def extract_text_from_bytes (parse : PyStr → PyStr → PyStr) (data : PyStr) (ext : PyStr) :
    PyStr :=
  if pyLower ext = ".txt".toList ∨ pyLower ext = ".md".toList then data
  else if pyLower ext = ".pdf".toList ∨ pyLower ext = ".docx".toList ∨
      pyLower ext = ".xlsx".toList then
    parse (pyLower ext) data
  else []

/-- A document record handed to `load_documents` (a storage metadata dict);
`content = none` models a value that is not a bytes object, `ext = []`
models a missing or empty `"ext"` entry. -/
structure RawDoc where
  name : PyStr
  content : Option PyStr
  ext : PyStr
  deriving Repr, DecidableEq

/-- Effective overlap of `load_documents`: the given overlap if positive,
else `max(1, int(chunk_size * overlap_ratio))`. -/
def effectiveOverlap (chunkSize overlap : Nat) (frac : ℚ) : Nat :=
  if 0 < overlap then overlap else max 1 ((chunkSize : ℚ) * frac).floor.toNat

/-- The extension used for one document: the stored `ext` if non-empty,
else the name's path suffix, lowered. -/
def docExt (doc : RawDoc) : PyStr :=
  pyLower (if doc.ext = [] then pySuffix doc.name else doc.ext)

/-- Model of `base_id = Path(name).stem or Path(name).name or "doc"`. -/
def baseIdOf (name : PyStr) : PyStr :=
  if pyStem name ≠ [] then pyStem name
  else if name ≠ [] then name else "doc".toList

/-- The chunk records `load_documents` emits for one document. -/
def loadOneDoc (parse : PyStr → PyStr → PyStr) (chunkSize effOverlap : Nat)
    (doc : RawDoc) : List DocumentChunk :=
  if doc.name = [] then []
  else
    match doc.content with
    | none => []
    | some content =>
      if docExt doc ∈ ALLOWED_DOC_EXTS then
        if pyStrip (extract_text_from_bytes parse content (docExt doc)) = [] then []
        else
          (chunk_text (extract_text_from_bytes parse content (docExt doc))
              chunkSize effOverlap).enum.map fun p =>
            ⟨baseIdOf doc.name ++ '-' :: (toString p.1).toList, pyStrip p.2, doc.name,
              "file".toList, none, some ⟨p.1, docExt doc⟩⟩
      else []

/-- Model of `app/rag.py` `load_documents`. -/
def load_documents (parse : PyStr → PyStr → PyStr) (documents : List RawDoc)
    (chunkSize overlap : Nat) (frac : ℚ) : List DocumentChunk :=
  (documents.map (loadOneDoc parse chunkSize (effectiveOverlap chunkSize overlap frac))).flatten

/-- The document of the C9 counterexample: `"a.txt"` containing the text
`"a     b"`, whose middle window under chunk size 3 / overlap 1 is all
whitespace. -/
def c9doc : RawDoc := ⟨"a.txt".toList, some "a     b".toList, ".txt".toList⟩

/-- Counterexample to claim C9 as stated: the whitespace-only window is
emitted as a chunk whose text strips to empty — it is not dropped. -/
theorem load_documents_emits_blank_chunk :
    ((load_documents (fun _ _ => []) [c9doc] 3 1 (3/20)).map DocumentChunk.text)
      = ["a".toList, [], "b".toList] ∧
    ((load_documents (fun _ _ => []) [c9doc] 3 1 (3/20)).any fun c => c.text.isEmpty) = true := by
  refine ⟨by decide, by decide⟩

theorem enum_map_snd_comp {α β : Type} (l : List α) (f : α → β) :
    l.enum.map (fun p => f p.2) = l.map f := by
  have h1 : l.enum.map (fun p => f p.2) = (l.enum.map Prod.snd).map f := by
    rw [List.map_map]
    rfl
  rw [h1, List.enum_map_snd]

/-- Interface of the amended claim C9: for a valid `.txt` document whose
full text is not pure whitespace, `load_documents` emits exactly one chunk
per window of `chunk_text` — whitespace-only windows included — and each
emitted chunk's text is the stripped window (so a whitespace-only window
yields a chunk with empty text rather than being dropped). -/
def loadStripSpec (parse : PyStr → PyStr → PyStr) (name content : PyStr)
    (s o : Nat) (frac : ℚ) : Prop :=
  (load_documents parse [⟨name, some content, ".txt".toList⟩] s o frac).map DocumentChunk.text
    = (chunk_text content s (effectiveOverlap s o frac)).map pyStrip

/-- Amended claim C9: chunks are stripped, not filtered: every window of the
text becomes a `DocumentChunk` whose text is the window's stripped content,
and only a document whose whole extracted text strips to empty is skipped. -/
theorem load_documents_strips_without_dropping (parse : PyStr → PyStr → PyStr)
    (name content : PyStr) (s o : Nat) (frac : ℚ)
    (hname : name ≠ []) (hcontent : pyStrip content ≠ []) :
    loadStripSpec parse name content s o frac := by
  have hde : docExt ⟨name, some content, ".txt".toList⟩ = ".txt".toList := by
    rfl
  have hex : extract_text_from_bytes parse content (".txt".toList) = content := by
    unfold extract_text_from_bytes
    rw [if_pos (Or.inl (by decide))]
  unfold loadStripSpec load_documents
  simp only [List.map_cons, List.map_nil, List.flatten_cons, List.flatten_nil,
    List.append_nil]
  unfold loadOneDoc
  rw [if_neg hname]
  simp only [hde, hex]
  rw [if_pos (show (".txt".toList : PyStr) ∈ ALLOWED_DOC_EXTS by decide), if_neg hcontent]
  rw [List.map_map]
  exact enum_map_snd_comp (chunk_text content s (effectiveOverlap s o frac)) pyStrip

/-- Witness for the amended claim C9 on a document with a whitespace-only
middle window. -/
theorem load_documents_strips_without_dropping_witness :
    "a.txt".toList ≠ [] ∧ pyStrip "a     b".toList ≠ [] ∧
    loadStripSpec (fun _ _ => []) "a.txt".toList "a     b".toList 3 1 (3/20) :=
  ⟨by decide, by decide,
    load_documents_strips_without_dropping (fun _ _ => []) "a.txt".toList "a     b".toList
      3 1 (3/20) (by decide) (by decide)⟩

/-!
Section: Retrieval orchestration and the agent façade
(`app/rag.py` `RAGPipeline.retrieve`, `app/agents.py` `AgentOrchestrator`)

The vector store search, the reranker, the answer generators and the
elapsed-time measurement are oracle parameters; a reranker raise is an
`Except.error`.  `app/prompts.py` is not part of the source tree, so the
fallback strings are modelled from the spec as uninterpreted constants.
-/

/-- The configuration fields of `Settings` that the read path consumes. -/
structure AgentSettings where
  topK : Nat
  rerankTopN : Nat
  minRelevance : ℚ
  cacheEnabled : Bool
  deriving Repr, DecidableEq

/-- Python `value or default` for an optional int (`None` and `0` are falsy). -/
def pyOrNat (v : Option Nat) (d : Nat) : Nat :=
  match v with
  | some n => if n = 0 then d else n
  | none => d

/-- Model of `RAGPipeline.retrieve`: resolve the effective top-k, recall
`max(k, rerank_top_n)` candidates when a reranker is configured, rerank,
and on a reranker exception fall back to the first `k` recall hits. -/
def retrieve (st : AgentSettings)
    (search : PyStr → Nat → List RetrievedChunk)
    (reranker : Option (PyStr → List RetrievedChunk → Nat → Except PyStr (List RetrievedChunk)))
    (query : PyStr) (topK : Option Nat) : List RetrievedChunk :=
  let k := pyOrNat topK st.topK
  let hits := search query (max k (if reranker.isSome then st.rerankTopN else k))
  match reranker with
  | some rr =>
    match rr query hits k with
    | Except.ok reranked => reranked
    | Except.error _ => hits.take k
  | none => hits

/-- Modelled from the spec: `app/prompts.py` (FALLBACK_GREETING) is not in
the source tree; the greeting fallback reply is an uninterpreted constant. -/
def FALLBACK_GREETING : PyStr := "您好！有什么可以帮您？".toList

/-- Modelled from the spec: `app/prompts.py` (FALLBACK_NO_CONTEXT) is not in
the source tree; `FALLBACK_NO_CONTEXT.format(query=clean)` is an
uninterpreted fixed template with the query interpolated. -/
def fallbackNoContextFormat (query : PyStr) : PyStr :=
  "未找到与「".toList ++ query ++ "」相关的资料。".toList

/-- The greeting words of `GREETING_PATTERN`, already lower-case. -/
def greetingWords : List PyStr :=
  ["你好".toList, "您好".toList, "嗨".toList, "哈喽".toList,
   "hello".toList, "hi".toList, "hey".toList]

/-- The trailing punctuation class of `GREETING_PATTERN`. -/
def greetingTrailChars : List Char := ['啊', '呀', '～', '!', '！', '。', ',', '.', '…', '·']

/-- Model of `GREETING_PATTERN.match(normalized)` with IGNORECASE: one greeting word
followed only by permitted trailing punctuation. -/
def greetingMatch (s : PyStr) : Bool :=
  greetingWords.any fun w =>
    w.isPrefixOf (pyLower s) &&
      ((pyLower s).drop w.length).all fun c => greetingTrailChars.contains c

/-- Model of `AgentOrchestrator._is_greeting`. -/
def is_greeting (text : Option PyStr) : Bool :=
  match text with
  | none => false
  | some t =>
    if t = [] then false
    else
      if pyStrip t = [] then false
      else if greetingMatch (pyStrip t) then true
      else
        ((pyStrip t).filter (fun c => c ≠ ' ')).length ≤ 6 &&
          ["hello".toList, "hi".toList].contains
            (pyLower ((pyStrip t).filter (fun c => c ≠ ' ')))

/-- Model of `AgentOrchestrator._fallback_text`. -/
def fallback_text (query : PyStr) : PyStr :=
  if is_greeting (some (pyStrip query)) then FALLBACK_GREETING
  else
    fallbackNoContextFormat (if pyStrip query = [] then "该问题".toList else pyStrip query)

/-- Model of `AgentOrchestrator._build_low_relevance_response`. -/
def buildLowRelevanceResponse (query : PyStr) : QueryResponse :=
  ⟨fallback_text query, [], 0⟩

/-- Model of `max((h.score for h in hits), default=0.0)`. -/
def bestScore (hits : List RetrievedChunk) : ℚ :=
  match hits with
  | [] => 0
  | h :: t => (t.map RetrievedChunk.score).foldl max h.score

/-- Model of `AgentOrchestrator._apply_relevance_threshold`: clamp the configured
threshold to `[0, 1]`, keep the hits scoring at least the threshold (all of
them when the clamped threshold is `≤ 0`), and report the best score. -/
def applyRelevanceThreshold (st : AgentSettings) (hits : List RetrievedChunk) :
    List RetrievedChunk × ℚ :=
  if max 0 (min 1 st.minRelevance) ≤ 0 then (hits, bestScore hits)
  else (hits.filter (fun h => max 0 (min 1 st.minRelevance) ≤ h.score), bestScore hits)

/-- Decimal rendering of an optional int as a Python f-string formats it. -/
def showOpt (v : Option Nat) : PyStr :=
  match v with
  | none => "None".toList
  | some n => (toString n).toList

/-- Model of `AgentOrchestrator._cache_key`: the SHA-256 hex digest of
`f"{req.query}|{req.top_k}|{req.max_tokens}"` is modelled by the digested
pre-image itself; the cache behaviour depends only on key equality, which
the model preserves. -/
def cache_key (req : QueryRequest) : PyStr :=
  req.query ++ '|' :: showOpt req.topK ++ '|' :: showOpt req.maxTokens

/-- The orchestrator response cache, a dict modelled as an association list
with first-match lookup. -/
abbrev Cache := List (PyStr × QueryResponse)

/-- Dict assignment `self.cache[key] = resp` (observationally equal to
overwrite under first-match lookup). -/
def cacheInsert (c : Cache) (k : PyStr) (v : QueryResponse) : Cache := (k, v) :: c

/-- Oracles consumed by `AgentOrchestrator.handle`: the retrieval pipeline,
the two answer backends, and the measured latency. -/
structure AgentEnv where
  retrieveFn : PyStr → Option Nat → List RetrievedChunk
  genAnswer : PyStr → List RetrievedChunk → Option Nat → PyStr
  lcAnswer : Option (PyStr → PyStr)
  latencyMs : ℚ

/-- Cache write performed on both exit paths of `handle`. -/
def storeIf (st : AgentSettings) (cache : Cache) (k : PyStr) (v : QueryResponse) : Cache :=
  if st.cacheEnabled then cacheInsert cache k v else cache

/-- The response built on the answered path of `handle`: LangChain answer
when configured, otherwise `rag.generate_answer`, with one source
attribution (snippet `text[:160]`) per filtered hit. -/
def answeredResponse (env : AgentEnv) (req : QueryRequest)
    (filtered : List RetrievedChunk) : QueryResponse :=
  ⟨(match env.lcAnswer with
    | some lc => lc req.query
    | none => env.genAnswer req.query filtered req.maxTokens),
   filtered.map fun h => ⟨h.chunk.source, h.chunk.text.take 160, h.score⟩,
   env.latencyMs⟩

/-- The cache-miss path of `AgentOrchestrator.handle`. -/
def handleMiss (st : AgentSettings) (env : AgentEnv) (cache : Cache) (req : QueryRequest) :
    QueryResponse × Bool × Cache :=
  if (applyRelevanceThreshold st (env.retrieveFn req.query req.topK)).1 = [] then
    (buildLowRelevanceResponse req.query, false,
      storeIf st cache (cache_key req) (buildLowRelevanceResponse req.query))
  else
    (answeredResponse env req (applyRelevanceThreshold st (env.retrieveFn req.query req.topK)).1,
     false,
     storeIf st cache (cache_key req)
       (answeredResponse env req
         (applyRelevanceThreshold st (env.retrieveFn req.query req.topK)).1))

/-- Model of `AgentOrchestrator.handle`, returning the response, the cache-hit flag
and the cache after the call. -/
def handle (st : AgentSettings) (env : AgentEnv) (cache : Cache) (req : QueryRequest) :
    QueryResponse × Bool × Cache :=
  match (if st.cacheEnabled then cache.lookup (cache_key req) else none) with
  | some cached => (cached, true, cache)
  | none => handleMiss st env cache req

/-- Interface of claim C3: on a reranker exception, `retrieve` returns the
recall hits truncated to the effective top-k, in recall order. -/
def rerankFallbackSpec (st : AgentSettings) (search : PyStr → Nat → List RetrievedChunk)
    (rr : PyStr → List RetrievedChunk → Nat → Except PyStr (List RetrievedChunk))
    (query : PyStr) (topK : Option Nat) : Prop :=
  retrieve st search (some rr) query topK =
    (search query (max (pyOrNat topK st.topK) st.rerankTopN)).take (pyOrNat topK st.topK)

/-- Claim C3: if the configured reranker raises, `RAGPipeline.retrieve`
catches the exception and returns the raw recall results truncated to the
effective top-k in their original order. -/
theorem retrieve_reranker_fallback (st : AgentSettings)
    (search : PyStr → Nat → List RetrievedChunk)
    (rr : PyStr → List RetrievedChunk → Nat → Except PyStr (List RetrievedChunk))
    (query : PyStr) (topK : Option Nat) (e : PyStr)
    (hraise : rr query (search query (max (pyOrNat topK st.topK) st.rerankTopN))
        (pyOrNat topK st.topK) = Except.error e) :
    rerankFallbackSpec st search rr query topK := by
  unfold rerankFallbackSpec retrieve
  simp only [Option.isSome_some, if_true, hraise]

/-- The two recall hits used in the C3 and C4 witnesses. -/
def wHitA : RetrievedChunk :=
  ⟨⟨"d-0".toList, "alpha".toList, "d.txt".toList, "file".toList, none, none⟩, 9/10⟩

/-- Second witness hit. -/
def wHitB : RetrievedChunk :=
  ⟨⟨"d-1".toList, "beta".toList, "d.txt".toList, "file".toList, none, none⟩, 1/5⟩

/-- Witness reranker that always raises. -/
def wFailingRerank : PyStr → List RetrievedChunk → Nat → Except PyStr (List RetrievedChunk) :=
  fun _ _ _ => Except.error "boom".toList

/-- Witness search oracle returning two hits. -/
def wSearch : PyStr → Nat → List RetrievedChunk := fun _ _ => [wHitA, wHitB]

/-- Witness for C3: with a raising reranker, `retrieve` returns the first
recall hit (effective top-k 1). -/
theorem retrieve_reranker_fallback_witness :
    wFailingRerank "q".toList
        (wSearch "q".toList (max (pyOrNat (some 1) 5) 8)) (pyOrNat (some 1) 5) =
      Except.error "boom".toList ∧
    rerankFallbackSpec ⟨5, 8, 0, false⟩ wSearch wFailingRerank "q".toList (some 1) :=
  ⟨rfl, retrieve_reranker_fallback ⟨5, 8, 0, false⟩ wSearch wFailingRerank "q".toList
    (some 1) "boom".toList rfl⟩

/-- Interface of claim C4: the gate filters the hit set to empty and
`handle` answers with the fallback text, an empty source list, zero latency
and no cache hit, caching that response when the cache is enabled. -/
def lowRelevanceSpec (st : AgentSettings) (env : AgentEnv) (cache : Cache)
    (req : QueryRequest) : Prop :=
  (applyRelevanceThreshold st (env.retrieveFn req.query req.topK)).1 = [] ∧
  (applyRelevanceThreshold st (env.retrieveFn req.query req.topK)).2 =
    bestScore (env.retrieveFn req.query req.topK) ∧
  handle st env cache req =
    (buildLowRelevanceResponse req.query, false,
      storeIf st cache (cache_key req) (buildLowRelevanceResponse req.query))

/-- Claim C4: with the configured threshold clamped to `[0,1]`, whenever the
clamped threshold is positive and every retrieved hit scores below it (in
particular when there are no hits), the relevance gate filters the hit set
to empty and `handle` returns the fallback answer with an empty source
list. -/
theorem relevance_gate_fallback (st : AgentSettings) (env : AgentEnv) (cache : Cache)
    (req : QueryRequest)
    (ht : 0 < max 0 (min 1 st.minRelevance))
    (hall : ∀ h ∈ env.retrieveFn req.query req.topK,
      h.score < max 0 (min 1 st.minRelevance))
    (hmiss : (if st.cacheEnabled then cache.lookup (cache_key req) else none) = none) :
    lowRelevanceSpec st env cache req := by
  have hfil : (applyRelevanceThreshold st (env.retrieveFn req.query req.topK)).1 = [] := by
    unfold applyRelevanceThreshold
    rw [if_neg (not_le.mpr ht)]
    simp only [List.filter_eq_nil_iff]
    intro h hm
    simpa using not_le.mpr (hall h hm)
  refine ⟨hfil, ?_, ?_⟩
  · unfold applyRelevanceThreshold
    rw [if_neg (not_le.mpr ht)]
  · unfold handle
    rw [hmiss]
    unfold handleMiss
    rw [if_pos hfil]

/-- Witness settings for C4 and C10: threshold one half, cache enabled. -/
def wSettings : AgentSettings := ⟨5, 8, 1/2, true⟩

/-- Witness oracle environment: recall returns the two witness hits, both
scoring below the threshold in the C4 instance. -/
def wEnv : AgentEnv :=
  ⟨fun _ _ => [⟨wHitA.chunk, 1/4⟩, wHitB], fun _ _ _ => "ans".toList, none, 7⟩

/-- Witness request. -/
def wReq : QueryRequest := ⟨"食堂几点开门".toList, some 3, none, false, some "s1".toList⟩

/-- Witness for C4: both hits score below the clamped threshold 1/2, so the
gate empties the hit set and `handle` returns the fallback response. -/
theorem relevance_gate_fallback_witness :
    (0 < max 0 (min 1 wSettings.minRelevance)) ∧
    (∀ h ∈ wEnv.retrieveFn wReq.query wReq.topK,
      h.score < max 0 (min 1 wSettings.minRelevance)) ∧
    ((if wSettings.cacheEnabled then ([] : Cache).lookup (cache_key wReq) else none) = none) ∧
    lowRelevanceSpec wSettings wEnv [] wReq := by
  have h1 : (0 : ℚ) < max 0 (min 1 wSettings.minRelevance) := by
    norm_num [wSettings, min_def, max_def]
  have h2 : ∀ h ∈ wEnv.retrieveFn wReq.query wReq.topK,
      h.score < max 0 (min 1 wSettings.minRelevance) := by
    intro h hm
    rw [show wEnv.retrieveFn wReq.query wReq.topK = [⟨wHitA.chunk, 1/4⟩, wHitB] from rfl] at hm
    rcases List.mem_cons.mp hm with h1 | hm
    · subst h1; norm_num [wSettings, min_def, max_def]
    rcases List.mem_cons.mp hm with h1 | hm
    · subst h1; norm_num [wSettings, wHitB, min_def, max_def]
    · simp at hm
  exact ⟨h1, h2, rfl, relevance_gate_fallback wSettings wEnv [] wReq h1 h2 rfl⟩

theorem lookup_cacheInsert (c : Cache) (k : PyStr) (v : QueryResponse) :
    (cacheInsert c k v).lookup k = some v := by
  simp [cacheInsert, List.lookup]

theorem handle_caches_result (st : AgentSettings) (env : AgentEnv) (c0 : Cache)
    (r : QueryRequest) (hc : st.cacheEnabled = true) :
    ((handle st env c0 r).2.2).lookup (cache_key r) = some (handle st env c0 r).1 := by
  unfold handle
  rw [hc, if_pos rfl]
  cases hl : c0.lookup (cache_key r) with
  | some v => simpa using hl
  | none =>
    unfold handleMiss
    by_cases hf : (applyRelevanceThreshold st (env.retrieveFn r.query r.topK)).1 = []
    · rw [if_pos hf]
      simp [storeIf, hc, lookup_cacheInsert]
    · rw [if_neg hf]
      simp [storeIf, hc, lookup_cacheInsert]

/-- Interface of claim C10: a second request agreeing on query, top-k and
max-tokens hits the cache entry written by the first call and returns that
call's response with the cache-hit flag set, leaving the cache unchanged. -/
def cacheKeySpec (st : AgentSettings) (env : AgentEnv) (c0 : Cache)
    (r1 r2 : QueryRequest) : Prop :=
  cache_key r1 = cache_key r2 ∧
  handle st env (handle st env c0 r1).2.2 r2 =
    ((handle st env c0 r1).1, true, (handle st env c0 r1).2.2)

/-- Claim C10: the cache key is computed only from query, top-k and
max-tokens, so two requests differing only in session id or streaming flag
share one cache entry — with caching enabled, the second call returns the
response cached by the first with the cache-hit boolean true. -/
theorem handle_cache_ignores_session (st : AgentSettings) (env : AgentEnv) (c0 : Cache)
    (r1 r2 : QueryRequest) (hc : st.cacheEnabled = true)
    (hq : r1.query = r2.query) (hk : r1.topK = r2.topK) (hm : r1.maxTokens = r2.maxTokens) :
    cacheKeySpec st env c0 r1 r2 := by
  have hkey : cache_key r1 = cache_key r2 := by
    unfold cache_key
    rw [hq, hk, hm]
  refine ⟨hkey, ?_⟩
  have hstore := handle_caches_result st env c0 r1 hc
  conv_lhs => rw [handle]
  rw [hc, if_pos rfl, ← hkey, hstore]

/-- Second witness request for C10: same query, top-k and max-tokens as
`wReq` but a different session id and the streaming flag set. -/
def wReq2 : QueryRequest := ⟨"食堂几点开门".toList, some 3, none, true, some "other".toList⟩

/-- Witness for C10: the two witness requests differ only in session id and
streaming flag and share one cache entry. -/
theorem handle_cache_ignores_session_witness :
    wSettings.cacheEnabled = true ∧ wReq.query = wReq2.query ∧
    wReq.topK = wReq2.topK ∧ wReq.maxTokens = wReq2.maxTokens ∧
    cacheKeySpec wSettings wEnv [] wReq wReq2 :=
  ⟨rfl, rfl, rfl, rfl,
    handle_cache_ignores_session wSettings wEnv [] wReq wReq2 rfl rfl rfl rfl⟩

/-!
Section: Remote rerankers (`app/rag.py`, `OpenAICompatibleReranker.rerank` and
`QianfanReranker.rerank`)

Both are embedded from the point where the remote response has been parsed:
`_resolve_index` collapses the accepted index key variants to an optional
integer (an explicit index field may carry any integer, including a
negative one; a text match yields a non-negative one), and `_resolve_score`
to an optional score with the candidate's own score as default.
-/

/-- A parsed remote rerank response entry after key resolution. -/
structure RerankEntry where
  index : Option Int
  score : Option ℚ
  deriving Repr, DecidableEq

/-- Python list subscription `l[i]` with negative-index wraparound; `none`
is an IndexError. -/
def pyGet {α : Type} (l : List α) (i : Int) : Option α :=
  if 0 ≤ i then l.get? i.toNat
  else if (-i) ≤ (l.length : Int) then l.get? (l.length - (-i).toNat) else none

/-- Model of `_resolve_score(entry, default=candidate score)`. -/
def resolveScore (e : RerankEntry) (dft : ℚ) : ℚ := e.score.getD dft

/-- The entry loop of `OpenAICompatibleReranker.rerank`.  Its index guard is
`idx is None or idx >= len(candidates) or idx in used` — it has no lower
bound, so a negative index reaches the Python subscript
`candidates[idx]`, which wraps around; a too-negative one raises (`none`). -/
def openaiRerankLoop (candidates : List RetrievedChunk) (topK : Nat) :
    List RerankEntry → List RetrievedChunk → List Int →
      Option (List RetrievedChunk × List Int)
  | [], scored, used => some (scored, used)
  | e :: rest, scored, used =>
    match e.index with
    | none => openaiRerankLoop candidates topK rest scored used
    | some idx =>
      if (candidates.length : Int) ≤ idx ∨ idx ∈ used then
        openaiRerankLoop candidates topK rest scored used
      else
        match pyGet candidates idx with
        | none => none
        | some cand =>
          if min topK candidates.length ≤ scored.length + 1 then
            some (scored ++ [⟨cand.chunk, resolveScore e cand.score⟩], used ++ [idx])
          else
            openaiRerankLoop candidates topK rest
              (scored ++ [⟨cand.chunk, resolveScore e cand.score⟩]) (used ++ [idx])

/-- The padding loop shared by both remote rerankers: fill with unused
candidates in recall order until `top_k` results are collected. -/
def padFromCandidates (topK : Nat) :
    List (Nat × RetrievedChunk) → List RetrievedChunk → List Int → List RetrievedChunk
  | [], scored, _ => scored
  | (i, item) :: rest, scored, used =>
    if topK ≤ scored.length then scored
    else if (i : Int) ∈ used then padFromCandidates topK rest scored used
    else padFromCandidates topK rest (scored ++ [⟨item.chunk, item.score⟩]) used

/-- Model of `OpenAICompatibleReranker.rerank` on a parsed response (`entries`);
`none` models an uncaught IndexError escaping `rerank`. -/
def openaiRerank (defaultTopK rerankTopN : Nat) (hits : List RetrievedChunk)
    (topK : Nat) (entries : List RerankEntry) : Option (List RetrievedChunk) :=
  if hits = [] then some []
  else
    let candidates := hits.take (max (if topK = 0 then defaultTopK else topK) rerankTopN)
    if entries = [] then some (candidates.take topK)
    else
      match openaiRerankLoop candidates topK entries [] [] with
      | none => none
      | some r =>
        if r.1.length < min topK candidates.length then
          some (padFromCandidates topK candidates.enum r.1 r.2)
        else some r.1

/-- The entry loop of `QianfanReranker.rerank`; unlike the OpenAI-compatible
one, its guard `not 0 <= idx < len(candidates)` also enforces the lower
bound, so no subscript can wrap around or fail. -/
def qianfanRerankLoop (candidates : List RetrievedChunk) (topK : Nat) :
    List RerankEntry → List RetrievedChunk → List Int →
      List RetrievedChunk × List Int
  | [], scored, used => (scored, used)
  | e :: rest, scored, used =>
    match e.index with
    | none => qianfanRerankLoop candidates topK rest scored used
    | some idx =>
      if ¬ (0 ≤ idx ∧ idx < (candidates.length : Int)) ∨ idx ∈ used then
        qianfanRerankLoop candidates topK rest scored used
      else
        match candidates.get? idx.toNat with
        | none => (scored, used)
        | some cand =>
          if topK ≤ scored.length + 1 then
            (scored ++ [⟨cand.chunk, resolveScore e cand.score⟩], used ++ [idx])
          else
            qianfanRerankLoop candidates topK rest
              (scored ++ [⟨cand.chunk, resolveScore e cand.score⟩]) (used ++ [idx])

/-- Model of `QianfanReranker.rerank` on a parsed response. -/
def qianfanRerank (defaultTopK rerankTopN : Nat) (hits : List RetrievedChunk)
    (topK : Nat) (entries : List RerankEntry) : List RetrievedChunk :=
  if hits = [] then []
  else
    let candidates := hits.take (max (if topK = 0 then defaultTopK else topK) rerankTopN)
    if entries = [] then candidates.take topK
    else
      let r := qianfanRerankLoop candidates topK entries [] []
      if r.1.length < min topK candidates.length then
        padFromCandidates topK candidates.enum r.1 r.2
      else r.1

/-- First candidate of the C5 failing input (recall score 2). -/
def c5hitA : RetrievedChunk :=
  ⟨⟨"d-0".toList, "alpha".toList, "d.txt".toList, "file".toList, none, none⟩, 2⟩

/-- Second candidate of the C5 failing input (recall score 1). -/
def c5hitB : RetrievedChunk :=
  ⟨⟨"d-1".toList, "beta".toList, "d.txt".toList, "file".toList, none, none⟩, 1⟩

/-- The parsed response triggering the C5 bug: an entry with index `-1`
followed by one with index `1`. -/
def c5entries : List RerankEntry := [⟨some (-1), some 9⟩, ⟨some 1, some 4⟩]

/-- Claim C5 fails on the code: on two candidates with parsed entries of
index `-1` and index `1`, `OpenAICompatibleReranker.rerank` returns the
second candidate twice — the negative index wraps around to the last
candidate and the `used` set records `-1` and `1` as distinct — while
`QianfanReranker.rerank`, whose guard also checks the lower bound, returns
no duplicate on the same input. -/
theorem openai_rerank_returns_duplicate :
    openaiRerank 2 2 [c5hitA, c5hitB] 2 c5entries =
      some [⟨c5hitB.chunk, 9⟩, ⟨c5hitB.chunk, 4⟩] ∧
    ¬ (([(⟨c5hitB.chunk, 9⟩ : RetrievedChunk), ⟨c5hitB.chunk, 4⟩].map
        RetrievedChunk.chunk).Nodup) ∧
    qianfanRerank 2 2 [c5hitA, c5hitB] 2 c5entries =
      [⟨c5hitB.chunk, 4⟩, ⟨c5hitA.chunk, 2⟩] ∧
    (([(⟨c5hitB.chunk, 4⟩ : RetrievedChunk), ⟨c5hitA.chunk, 2⟩].map
        RetrievedChunk.chunk).Nodup) := by
  refine ⟨by decide, by decide, by decide, by decide⟩

/-!
Section: Embedding provider (`app/embedding_provider.py`)

`embed` batches the texts, runs each batch through a retry loop with
exponential backoff, and aborts the whole call on a non-retryable or
exhausted failure.  The backend call — including the row normalisation the
`_embed_*` helpers perform — is the oracle `provider`, invoked with the
batch texts and the attempt number; an exception is an `Except.error`
carrying the rate-limit flag and the message used for classification.
-/

/-- An exception raised by a backend embedding call. -/
structure EmbError where
  isRateLimit : Bool
  msg : PyStr
  deriving Repr, DecidableEq

/-- Python substring membership `needle in hay`. -/
def strContains (hay needle : PyStr) : Bool :=
  (List.range (hay.length + 1)).any fun i => needle.isPrefixOf (hay.drop i)

/-- Model of `EmbeddingProvider._is_retryable_error`. -/
def is_retryable_error (e : EmbError) : Bool :=
  e.isRateLimit ||
    ["429".toList, "rate limit".toList, "too many requests".toList,
     "tpm".toList, "rpm".toList].any fun kw => strContains (pyLower e.msg) kw

/-- The raw configuration fields `embed` reads, before the sanitisation it
performs itself. -/
structure EmbCfg where
  batchSize : Nat
  maxRetries : Nat
  baseDelay : ℚ
  maxDelay : ℚ
  deriving Repr, DecidableEq

/-- Model of `base_delay = max(0.1, ...)`. -/
def baseDelayOf (cfg : EmbCfg) : ℚ := max (1/10) cfg.baseDelay

/-- Model of `max_delay = max(base_delay, ...)`. -/
def maxDelayOf (cfg : EmbCfg) : ℚ := max (baseDelayOf cfg) cfg.maxDelay

/-- The per-batch retry loop of `embed`: `attempt` counts failures so far,
`delay` is the next backoff sleep.  The result is paired with the list of
delays slept, in order.  The loop raises once `attempt + 1` reaches the
retry bound or the error is not retryable. -/
def retryBatch (call : Nat → Except EmbError (List (List ℚ))) (maxRetries : Nat)
    (maxDelay : ℚ) (attempt : Nat) (delay : ℚ) :
    Except EmbError (List (List ℚ)) × List ℚ :=
  match call attempt with
  | Except.ok v => (Except.ok v, [])
  | Except.error e =>
    if h : attempt + 1 < maxRetries ∧ is_retryable_error e = true then
      let r := retryBatch call maxRetries maxDelay (attempt + 1) (min (delay * 2) maxDelay)
      (r.1, delay :: r.2)
    else (Except.error e, [])
termination_by maxRetries - attempt
decreasing_by simp_wf; omega

/-- Model of `range(0, len(texts), batch_size)` slicing into batches. -/
def batchSplit (n : Nat) (l : List PyStr) : List (List PyStr) :=
  if h0 : l = [] then []
  else if h : 0 < n then
    l.take n :: batchSplit n (l.drop n)
  else [l]
termination_by l.length
decreasing_by
  simp_wf
  exact ⟨List.length_pos.mpr h0, h⟩

/-- The batch loop of `embed`: batches are embedded in order; the first
failing batch aborts the call with its error and no rows at all. -/
def embedBatches (provider : List PyStr → Nat → Except EmbError (List (List ℚ)))
    (maxRetries : Nat) (baseDelay maxDelay : ℚ) :
    List (List PyStr) → Except EmbError (List (List ℚ)) × List ℚ
  | [] => (Except.ok [], [])
  | b :: bs =>
    match retryBatch (provider b) maxRetries maxDelay 0 baseDelay with
    | (Except.error e, sl) => (Except.error e, sl)
    | (Except.ok rows, sl) =>
      match embedBatches provider maxRetries baseDelay maxDelay bs with
      | (Except.error e, sl2) => (Except.error e, sl ++ sl2)
      | (Except.ok rest, sl2) => (Except.ok (rows ++ rest), sl ++ sl2)

/-- Model of `EmbeddingProvider.embed`: an empty input short-circuits to a zero-row
matrix; otherwise the configured values are clamped exactly as in the code
and the batches are embedded in order (`np.vstack` is row concatenation). -/
def embed (cfg : EmbCfg) (provider : List PyStr → Nat → Except EmbError (List (List ℚ)))
    (texts : List PyStr) : Except EmbError (List (List ℚ)) × List ℚ :=
  if texts = [] then (Except.ok [], [])
  else
    embedBatches provider (max 1 cfg.maxRetries) (baseDelayOf cfg) (maxDelayOf cfg)
      (batchSplit (max 1 cfg.batchSize) texts)

/-- Whether an `Except` result is a success. -/
def exceptIsOk {ε α : Type} : Except ε α → Bool
  | Except.ok _ => true
  | Except.error _ => false

theorem backoff_step (d M : ℚ) (hd : 0 < d) (hdM : d ≤ M) (i : Nat) :
    min (min (d * 2) M * 2 ^ i) M = min (d * 2 ^ (i + 1)) M := by
  have h2i : (1 : ℚ) ≤ 2 ^ i := one_le_pow₀ (by norm_num)
  have h2ipos : (0 : ℚ) < 2 ^ i := by positivity
  have hps : d * 2 * 2 ^ i = d * 2 ^ (i + 1) := by rw [pow_succ]; ring
  rcases le_or_lt (d * 2) M with h | h
  · rw [min_eq_left h, hps]
  · have hM0 : (0 : ℚ) < M := lt_of_lt_of_le hd hdM
    have hMle : M ≤ M * 2 ^ i := le_mul_of_one_le_right (le_of_lt hM0) h2i
    have hstep : M * 2 ^ i ≤ d * 2 * 2 ^ i :=
      mul_le_mul_of_nonneg_right (le_of_lt h) (le_of_lt h2ipos)
    have hub : M ≤ d * 2 ^ (i + 1) := by
      rw [← hps]
      exact le_trans hMle hstep
    rw [min_eq_right (le_of_lt h), min_eq_right hMle, min_eq_right hub]

theorem retryBatch_sched_aux (call : Nat → Except EmbError (List (List ℚ)))
    (mR : Nat) (mD : ℚ) :
    ∀ n attempt delay, mR - attempt ≤ n → 0 < delay → delay ≤ mD →
      ∃ k, k ≤ mR - 1 - attempt ∧
        (retryBatch call mR mD attempt delay).2 =
          (List.range k).map fun i => min (delay * 2 ^ i) mD := by
  intro n
  induction n with
  | zero =>
    intro attempt delay hle hd hdm
    rw [retryBatch]
    cases hc : call attempt with
    | ok v => exact ⟨0, by omega, by simp⟩
    | error e =>
      dsimp only
      rw [dif_neg (by omega)]
      exact ⟨0, by omega, by simp⟩
  | succ n ih =>
    intro attempt delay hle hd hdm
    rw [retryBatch]
    cases hc : call attempt with
    | ok v => exact ⟨0, by omega, by simp⟩
    | error e =>
      dsimp only
      by_cases hcond : attempt + 1 < mR ∧ is_retryable_error e = true
      · rw [dif_pos hcond]
        have hd2 : 0 < min (delay * 2) mD := lt_min (by linarith) (lt_of_lt_of_le hd hdm)
        obtain ⟨k, hk, heq⟩ := ih (attempt + 1) (min (delay * 2) mD)
          (by omega) hd2 (min_le_right _ _)
        refine ⟨k + 1, by omega, ?_⟩
        simp only [heq, List.range_succ_eq_map, List.map_cons, List.map_map]
        congr 1
        · rw [pow_zero, mul_one, min_eq_left hdm]
        · refine List.map_congr_left ?_
          intro i _
          exact backoff_step delay mD hd hdm i
      · rw [dif_neg hcond]
        exact ⟨0, by omega, by simp⟩

theorem retryBatch_nonretryable_aux (call : Nat → Except EmbError (List (List ℚ)))
    (mR : Nat) (mD : ℚ) (f : Nat → EmbError) (e : EmbError) (j : Nat)
    (hj : j < mR)
    (hpre : ∀ a, a < j → call a = Except.error (f a) ∧ is_retryable_error (f a) = true)
    (hcj : call j = Except.error e) (hnr : is_retryable_error e = false) :
    ∀ n attempt delay, j - attempt ≤ n → attempt ≤ j → 0 < delay → delay ≤ mD →
      retryBatch call mR mD attempt delay =
        (Except.error e, (List.range (j - attempt)).map fun i => min (delay * 2 ^ i) mD) := by
  intro n
  induction n with
  | zero =>
    intro attempt delay h1 h2 hd hdm
    have hq : attempt = j := by omega
    subst hq
    rw [retryBatch, hcj]
    dsimp only
    rw [dif_neg (by simp [hnr])]
    simp
  | succ n ih =>
    intro attempt delay h1 h2 hd hdm
    by_cases haj : attempt = j
    · subst haj
      rw [retryBatch, hcj]
      dsimp only
      rw [dif_neg (by simp [hnr])]
      simp
    · have haltj : attempt < j := by omega
      obtain ⟨hca, hra⟩ := hpre attempt haltj
      rw [retryBatch, hca]
      dsimp only
      rw [dif_pos ⟨by omega, hra⟩]
      have hd2 : 0 < min (delay * 2) mD := lt_min (by linarith) (lt_of_lt_of_le hd hdm)
      rw [ih (attempt + 1) (min (delay * 2) mD) (by omega) (by omega) hd2 (min_le_right _ _)]
      dsimp only
      have hsub : j - attempt = (j - (attempt + 1)) + 1 := by omega
      rw [hsub, List.range_succ_eq_map, List.map_cons, List.map_map, pow_zero, mul_one,
        min_eq_left hdm]
      have hmapeq : List.map (fun i => min (min (delay * 2) mD * 2 ^ i) mD)
          (List.range (j - (attempt + 1))) =
          List.map ((fun i => min (delay * 2 ^ i) mD) ∘ Nat.succ)
          (List.range (j - (attempt + 1))) :=
        List.map_congr_left fun i _ => backoff_step delay mD hd hdm i
      rw [hmapeq]

theorem retryBatch_exhaust_aux (call : Nat → Except EmbError (List (List ℚ)))
    (mR : Nat) (mD : ℚ) (e : Nat → EmbError)
    (hfail : ∀ a, call a = Except.error (e a))
    (hretry : ∀ a, is_retryable_error (e a) = true) :
    ∀ n attempt delay, mR - attempt ≤ n → attempt < mR →
      (retryBatch call mR mD attempt delay).1 = Except.error (e (mR - 1)) ∧
      (retryBatch call mR mD attempt delay).2.length = mR - 1 - attempt := by
  intro n
  induction n with
  | zero => intro attempt delay h1 h2; omega
  | succ n ih =>
    intro attempt delay h1 h2
    rw [retryBatch, hfail attempt]
    dsimp only
    by_cases hcond : attempt + 1 < mR
    · rw [dif_pos ⟨hcond, hretry attempt⟩]
      obtain ⟨ih1, ih2⟩ := ih (attempt + 1) (min (delay * 2) mD) (by omega) hcond
      refine ⟨ih1, ?_⟩
      simp only [List.length_cons, ih2]
      omega
    · rw [dif_neg (by tauto)]
      have hq : attempt = mR - 1 := by omega
      rw [hq]
      refine ⟨rfl, ?_⟩
      simp only [List.length_nil]
      omega

theorem embedBatches_ok_iff (provider : List PyStr → Nat → Except EmbError (List (List ℚ)))
    (mR : Nat) (base mD : ℚ) :
    ∀ bs, exceptIsOk (embedBatches provider mR base mD bs).1 = true ↔
      ∀ b ∈ bs, exceptIsOk (retryBatch (provider b) mR mD 0 base).1 = true := by
  intro bs
  induction bs with
  | nil => simp [embedBatches, exceptIsOk]
  | cons b rest ih =>
    rw [embedBatches]
    cases hr : retryBatch (provider b) mR mD 0 base with
    | mk r1 sl =>
    cases r1 with
    | error e =>
      dsimp only
      constructor
      · intro h
        exact absurd h (by simp [exceptIsOk])
      · intro h
        have hb := h b (List.mem_cons_self b rest)
        rw [hr] at hb
        exact absurd hb (by simp [exceptIsOk])
    | ok rows =>
      cases hrec : embedBatches provider mR base mD rest with
      | mk r2 sl2 =>
      cases r2 with
      | error e2 =>
        dsimp only
        rw [hrec] at ih
        constructor
        · intro h
          exact absurd h (by simp [exceptIsOk])
        · intro h
          have h2 : ∀ x ∈ rest, exceptIsOk (retryBatch (provider x) mR mD 0 base).1
              = true := fun x hx => h x (List.mem_cons_of_mem b hx)
          exact absurd (ih.mpr h2) (by simp [exceptIsOk])
      | ok rest2 =>
        dsimp only
        rw [hrec] at ih
        constructor
        · intro _
          intro x hx
          rcases List.mem_cons.mp hx with h | h
          · subst h
            rw [hr]
            rfl
          · exact ih.mp rfl x h
        · intro _
          rfl

/-- Interface of claim C6, stated for the sanitised retry parameters the
code derives from the configuration.  (a) An error that is not classified
retryable propagates the moment it arrives — whether on the first attempt
or after any number of earlier retryable failures: the run returns that
error with exactly the sleeps of the earlier failures and no sleep or
attempt beyond it.  (b) The sleeps of any run form the capped doubling
schedule `min(base·2^i, max_delay)` with at most `max_retries − 1` entries.
(c) If every attempt fails with a retryable error, the loop raises the
error of attempt `max_retries − 1` after exactly `max_retries − 1` sleeps.
(d) `embed` succeeds iff every batch's retry loop succeeds — any batch
failure aborts the whole call, so no partial result is returned. -/
def embedRetrySpec (cfg : EmbCfg)
    (provider : List PyStr → Nat → Except EmbError (List (List ℚ)))
    (texts : List PyStr) : Prop :=
  (∀ (call : Nat → Except EmbError (List (List ℚ))) (f : Nat → EmbError) (e : EmbError)
      (j : Nat), j < max 1 cfg.maxRetries →
    (∀ a, a < j → call a = Except.error (f a) ∧ is_retryable_error (f a) = true) →
    call j = Except.error e → is_retryable_error e = false →
    retryBatch call (max 1 cfg.maxRetries) (maxDelayOf cfg) 0 (baseDelayOf cfg) =
      (Except.error e,
        (List.range j).map fun i => min (baseDelayOf cfg * 2 ^ i) (maxDelayOf cfg))) ∧
  (∀ call : Nat → Except EmbError (List (List ℚ)),
    ∃ k, k ≤ max 1 cfg.maxRetries - 1 ∧
      (retryBatch call (max 1 cfg.maxRetries) (maxDelayOf cfg) 0 (baseDelayOf cfg)).2 =
        (List.range k).map fun i => min (baseDelayOf cfg * 2 ^ i) (maxDelayOf cfg)) ∧
  (∀ (call : Nat → Except EmbError (List (List ℚ))) (e : Nat → EmbError),
    (∀ a, call a = Except.error (e a)) → (∀ a, is_retryable_error (e a) = true) →
    (retryBatch call (max 1 cfg.maxRetries) (maxDelayOf cfg) 0 (baseDelayOf cfg)).1 =
        Except.error (e (max 1 cfg.maxRetries - 1)) ∧
      (retryBatch call (max 1 cfg.maxRetries) (maxDelayOf cfg) 0
          (baseDelayOf cfg)).2.length = max 1 cfg.maxRetries - 1) ∧
  (exceptIsOk (embed cfg provider texts).1 = true ↔
    ∀ b ∈ batchSplit (max 1 cfg.batchSize) texts,
      exceptIsOk (retryBatch (provider b) (max 1 cfg.maxRetries) (maxDelayOf cfg) 0
        (baseDelayOf cfg)).1 = true)

/-- Claim C6: an error that is not classified retryable propagates
immediately with no further retry of its batch, at whatever attempt it
arrives; retryable errors are retried with delays starting at the
configured base, doubling each attempt and capped at the configured
maximum, with attempts bounded by the configured retry count, after which
the error propagates; and a failing batch aborts `embed` with no partial
result. -/
theorem embed_retry_discipline (cfg : EmbCfg)
    (provider : List PyStr → Nat → Except EmbError (List (List ℚ)))
    (texts : List PyStr) : embedRetrySpec cfg provider texts := by
  have hbase : 0 < baseDelayOf cfg := lt_of_lt_of_le (by norm_num) (le_max_left _ _)
  have hbm : baseDelayOf cfg ≤ maxDelayOf cfg := le_max_left _ _
  refine ⟨?_, ?_, ?_, ?_⟩
  · intro call f e j hj hpre hcj hnr
    have := retryBatch_nonretryable_aux call (max 1 cfg.maxRetries) (maxDelayOf cfg) f e j
      hj hpre hcj hnr j 0 (baseDelayOf cfg) (by omega) (by omega) hbase hbm
    simpa using this
  · intro call
    obtain ⟨k, hk, heq⟩ := retryBatch_sched_aux call (max 1 cfg.maxRetries) (maxDelayOf cfg)
      (max 1 cfg.maxRetries) 0 (baseDelayOf cfg) (by omega) hbase hbm
    exact ⟨k, by omega, heq⟩
  · intro call e hfail hretry
    have hx := retryBatch_exhaust_aux call (max 1 cfg.maxRetries) (maxDelayOf cfg) e hfail
      hretry (max 1 cfg.maxRetries) 0 (baseDelayOf cfg) (by omega) (by omega)
    refine ⟨hx.1, ?_⟩
    rw [hx.2]
    omega
  · unfold embed
    by_cases ht : texts = []
    · rw [if_pos ht, ht]
      have hbs : batchSplit (max 1 cfg.batchSize) ([] : List PyStr) = [] := by
        unfold batchSplit
        simp
      rw [hbs]
      simp [exceptIsOk]
    · rw [if_neg ht]
      exact embedBatches_ok_iff provider _ _ _ _

/-!
Section: Row normalisation (`app/embedding_provider.py`, `_embed_openai` /
`_embed_qianfan`)

`arr / (np.linalg.norm(arr, axis=1) + 1e-12)` divides every row by its L2
norm plus an epsilon.  The norm value is irrational in general, so the
value `np.linalg.norm` computes for a row is an explicit argument `nrm`,
constrained in the theorems by `0 ≤ nrm` and `nrm * nrm = sumSq v`.
-/

/-- The epsilon `1e-12` added to the norm before dividing. -/
def normEps : ℚ := 1 / 1000000000000

/-- Squared L2 norm of a row. -/
def sumSq (v : List ℚ) : ℚ := (v.map fun x => x * x).sum

/-- One row of `arr / (norms + 1e-12)`. -/
def normalizeRow (v : List ℚ) (nrm : ℚ) : List ℚ := v.map fun x => x / (nrm + normEps)

theorem sumSq_div (v : List ℚ) (c : ℚ) :
    sumSq (v.map fun x => x / c) = sumSq v / (c * c) := by
  induction v with
  | nil => simp [sumSq]
  | cons x xs ih =>
    simp only [List.map_cons, sumSq, List.sum_cons] at ih ⊢
    rw [ih, div_mul_div_comm, div_add_div_same]

/-- Interface of the amended claim C7: `embed([])` is the zero-row matrix,
and a normalised row whose backend vector has L2 norm `nrm ≥ 1e-6` has L2
norm exactly `nrm / (nrm + 1e-12)`, which lies within `1e-6` of 1. -/
def embedNormSpec (cfg : EmbCfg)
    (provider : List PyStr → Nat → Except EmbError (List (List ℚ)))
    (v : List ℚ) (nrm : ℚ) : Prop :=
  embed cfg provider [] = (Except.ok [], []) ∧
  sumSq (normalizeRow v nrm) = (nrm / (nrm + normEps)) ^ 2 ∧
  1 - 1 / 1000000 ≤ nrm / (nrm + normEps) ∧ nrm / (nrm + normEps) ≤ 1

/-- Amended claim C7: `embed` of the empty list returns a zero-row matrix;
and every row whose backend vector has L2 norm at least `1e-6` is unit up
to the claimed `1e-6` tolerance after the `/(norm + 1e-12)` normalisation
(the bound below which this fails is what the counterexample exhibits). -/
theorem embed_rows_unit_norm (cfg : EmbCfg)
    (provider : List PyStr → Nat → Except EmbError (List (List ℚ)))
    (v : List ℚ) (nrm : ℚ)
    (hsq : nrm * nrm = sumSq v) (hlb : 1 / 1000000 ≤ nrm) :
    embedNormSpec cfg provider v nrm := by
  have heps : (0 : ℚ) < normEps := by norm_num [normEps]
  have hnrm0 : (0 : ℚ) < nrm := lt_of_lt_of_le (by norm_num) hlb
  have hc : (0 : ℚ) < nrm + normEps := by linarith
  refine ⟨by simp [embed], ?_, ?_, ?_⟩
  · rw [normalizeRow, sumSq_div, ← hsq, div_pow]
    ring
  · rw [le_div_iff₀ hc]
    rw [show normEps = 1 / 1000000000000 from rfl] at *
    linarith
  · rw [div_le_one hc]
    linarith

/-- Witness for the amended claim C7 at the backend row `[3, 4]` with L2
norm 5. -/
theorem embed_rows_unit_norm_witness :
    ((5 : ℚ) * 5 = sumSq [3, 4]) ∧ ((1 : ℚ) / 1000000 ≤ 5) ∧
    embedNormSpec ⟨16, 3, 1, 10⟩ (fun _ _ => Except.ok []) [3, 4] 5 :=
  ⟨by norm_num [sumSq], by norm_num,
    embed_rows_unit_norm ⟨16, 3, 1, 10⟩ (fun _ _ => Except.ok []) [3, 4] 5
      (by norm_num [sumSq]) (by norm_num)⟩

/-- Counterexample to claim C7 as stated: a backend returning the zero
vector makes `embed` succeed with the all-zero row (norm 0, with
`0 * 0 = sumSq [0,0]` certifying that 0 is its L2 norm), whose norm is not
within `1e-6` of 1 — the claim fails without a lower bound on the backend
vector's norm. -/
theorem embed_zero_vector_row_not_unit :
    (embed ⟨16, 3, 1, 10⟩ (fun _ _ => Except.ok [normalizeRow [0, 0] 0]) ["x".toList]).1 =
      Except.ok [[0, 0]] ∧
    ((0 : ℚ) * 0 = sumSq [0, 0]) ∧
    sumSq (normalizeRow [(0 : ℚ), 0] 0) = 0 ∧
    (0 : ℚ) < (1 - 1 / 1000000) ^ 2 := by
  have hrow : normalizeRow [(0 : ℚ), 0] 0 = [0, 0] := by
    simp [normalizeRow]
  refine ⟨?_, by norm_num [sumSq], by rw [hrow]; norm_num [sumSq], by norm_num⟩
  have hbs : batchSplit (max 1 (16 : Nat)) ["x".toList] = [["x".toList]] := by
    unfold batchSplit
    norm_num
    unfold batchSplit
    simp
  rw [show (embed ⟨16, 3, 1, 10⟩ (fun _ _ => Except.ok [normalizeRow [0, 0] 0])
      ["x".toList]) = embedBatches (fun _ _ => Except.ok [normalizeRow [0, 0] 0])
        (max 1 3) (baseDelayOf ⟨16, 3, 1, 10⟩) (maxDelayOf ⟨16, 3, 1, 10⟩)
        (batchSplit (max 1 16) ["x".toList]) from by rw [embed]; simp]
  rw [hbs, embedBatches]
  rw [show retryBatch ((fun (_ : List PyStr) (_ : Nat) =>
      Except.ok (ε := EmbError) [normalizeRow [0, 0] 0]) ["x".toList]) (max 1 3)
      (maxDelayOf ⟨16, 3, 1, 10⟩) 0 (baseDelayOf ⟨16, 3, 1, 10⟩) =
      (Except.ok [normalizeRow [0, 0] 0], []) from by rw [retryBatch]]
  rw [embedBatches]
  dsimp only
  rw [hrow]
  simp

/-!
Section: Scheduled ingestion (`app/main.py`, `_run_vectorize_job`)

Document storage (`doc_storage.get_document`) is the oracle `storage`
(`none` is `FileNotFoundError`); the status sink and the vector store
mutations are collected in a `VectorizeOutcome` record.  The calls of the
shared indexing section that can raise — `vectorstore.upsert_documents`
(whose embedding call can fail), `vectorstore.delete_documents` and
`doc_storage.update_vector_refs` — are Boolean success oracles; any raise
takes the `except` arm, which fails every requested document with a
generic reason and skips the remaining mutations.
-/

/-- One entry of a scheduled ingestion batch. -/
structure IngestEntry where
  filename : Option PyStr
  jobId : Option PyStr
  deriving Repr, DecidableEq

/-- A record passed to `redis_coord.set_status` (the matching
`record_event` carries the same fields). -/
structure StatusRecord where
  doc : PyStr
  status : PyStr
  jobId : Option PyStr
  error : Option PyStr
  chunkCount : Option Nat
  note : Option PyStr
  deriving Repr, DecidableEq

/-- Model of `_fail(doc_name, reason)`. -/
def failRecord (jid : Option PyStr) (doc reason : PyStr) : StatusRecord :=
  ⟨doc, "failed".toList, jid, some reason, none, none⟩

/-- Model of `_complete(doc_name, chunk_count, note)`. -/
def completeRecord (jid : Option PyStr) (doc : PyStr) (chunkCount : Nat)
    (note : Option PyStr) : StatusRecord :=
  ⟨doc, "completed".toList, jid, none, some chunkCount, note⟩

/-- Model of `[entry.get("filename") for entry in entries if entry.get("filename")]`. -/
def vectorizeFilenames (entries : List IngestEntry) : List PyStr :=
  entries.filterMap fun e =>
    match e.filename with
    | some n => if n = [] then none else some n
    | none => none

/-- Model of `job_map.get(name)`: the dict comprehension keeps the last entry per
filename; a missing filename or a stored `None` job id both yield `none`. -/
def jobIdFor (entries : List IngestEntry) (name : PyStr) : Option PyStr :=
  (((entries.filterMap fun e =>
      match e.filename with
      | some n => if n = [] then none else some (n, e.jobId)
      | none => none).reverse).lookup name).join

/-- Insertion-ordered dict update `requested_docs[name] = doc`. -/
def dictInsert {α : Type} (m : List (PyStr × α)) (k : PyStr) (v : α) : List (PyStr × α) :=
  if (m.map Prod.fst).contains k then
    m.map fun p => if p.1 = k then (k, v) else p
  else m ++ [(k, v)]

/-- One iteration of the requested-docs loop: a missing document or a
disallowed extension records a failed status, otherwise the document joins
the requested map. -/
def requestedStep (storage : PyStr → Option RawDoc) (jid : PyStr → Option PyStr)
    (acc : List (PyStr × RawDoc) × List StatusRecord) (name : PyStr) :
    List (PyStr × RawDoc) × List StatusRecord :=
  match storage name with
  | none => (acc.1, acc.2 ++ [failRecord (jid name) name "文件不存在".toList])
  | some doc =>
    if pyLower doc.ext ∈ ALLOWED_DOC_EXTS then (dictInsert acc.1 name doc, acc.2)
    else
      (acc.1, acc.2 ++ [failRecord (jid name) name
        ("不支持的文件类型: ".toList ++
          (if pyLower doc.ext = [] then "unknown".toList else pyLower doc.ext))])

/-- The requested-docs loop of `_run_vectorize_job`. -/
def requestedDocs (storage : PyStr → Option RawDoc) (jid : PyStr → Option PyStr)
    (filenames : List PyStr) : List (PyStr × RawDoc) × List StatusRecord :=
  filenames.foldl (requestedStep storage jid) ([], [])

/-- Everything `_run_vectorize_job` pushes to its collaborators: status
records in order, the single upsert payload, the deleted document names,
and the vector-reference updates. -/
structure VectorizeOutcome where
  statuses : List StatusRecord
  upserts : List (PyStr × List DocumentChunk)
  deletes : List PyStr
  vectorRefs : List (PyStr × List PyStr)
  deriving Repr, DecidableEq

/-- Model of `doc_chunk_map`: the loaded chunks grouped by source document
in requested order (one filter per requested name, preserving chunk
order). -/
def docChunkMap (parse : PyStr → PyStr → PyStr) (storage : PyStr → Option RawDoc)
    (chunkSize overlap : Nat) (frac : ℚ) (entries : List IngestEntry) :
    List (PyStr × List DocumentChunk) :=
  (requestedDocs storage (jobIdFor entries) (vectorizeFilenames entries)).1.map fun p =>
    (p.1, (load_documents parse
      ((requestedDocs storage (jobIdFor entries) (vectorizeFilenames entries)).1.map
        Prod.snd) chunkSize overlap frac).filter fun c => c.source = p.1)

/-- The `update_vector_refs` loop: updates run in document order and the
first raising call aborts the section; the updates completed before it are
returned together with a flag telling whether the loop finished. -/
def refsPrefix (refsOk : PyStr → List PyStr → Bool) :
    List (PyStr × List PyStr) → List (PyStr × List PyStr) × Bool
  | [] => ([], true)
  | (n, ids) :: rest =>
    if refsOk n ids then
      ((n, ids) :: (refsPrefix refsOk rest).1, (refsPrefix refsOk rest).2)
    else ([], false)

/-- Model of `_run_vectorize_job`.  The section mutations run in program
order — upsert of the non-empty chunk lists, deletion of the zero-chunk
documents, one vector-ref update per document — and the first one whose
oracle reports a raise takes the `except` arm: every requested document is
failed with the generic reason and the remaining mutations are skipped.
The outcome records only the mutations that completed. -/
def run_vectorize_job (parse : PyStr → PyStr → PyStr) (storage : PyStr → Option RawDoc)
    (upsertOk : List (PyStr × List DocumentChunk) → Bool)
    (deleteOk : List PyStr → Bool) (refsOk : PyStr → List PyStr → Bool)
    (chunkSize overlap : Nat) (frac : ℚ) (entries : List IngestEntry) :
    VectorizeOutcome :=
  if vectorizeFilenames entries = [] then ⟨[], [], [], []⟩
  else
    let rq := requestedDocs storage (jobIdFor entries) (vectorizeFilenames entries)
    if rq.1 = [] then ⟨rq.2, [], [], []⟩
    else
      let dcm := docChunkMap parse storage chunkSize overlap frac entries
      let failAll := dcm.map fun p =>
        failRecord (jobIdFor entries p.1) p.1 "索引构建失败".toList
      let upsertPayload := dcm.filter fun p => p.2 ≠ []
      let emptyDocs := (dcm.filter fun p => p.2 = []).map Prod.fst
      if upsertPayload ≠ [] ∧ upsertOk upsertPayload = false then
        ⟨rq.2 ++ failAll, [], [], []⟩
      else if emptyDocs ≠ [] ∧ deleteOk emptyDocs = false then
        ⟨rq.2 ++ failAll, upsertPayload, [], []⟩
      else
        let rp := refsPrefix refsOk (dcm.map fun p => (p.1, p.2.map DocumentChunk.id))
        if rp.2 = false then ⟨rq.2 ++ failAll, upsertPayload, emptyDocs, rp.1⟩
        else
          ⟨rq.2 ++ dcm.map (fun p =>
              if p.2.length = 0 then
                completeRecord (jobIdFor entries p.1) p.1 0 (some "no_chunks".toList)
              else completeRecord (jobIdFor entries p.1) p.1 p.2.length none),
           upsertPayload, emptyDocs, rp.1⟩

theorem mem_dictInsert {α : Type} (m : List (PyStr × α)) (k : PyStr) (v : α) :
    ∀ q ∈ dictInsert m k v, q ∈ m ∨ q = (k, v) := by
  intro q hq
  unfold dictInsert at hq
  by_cases hc : (m.map Prod.fst).contains k
  · rw [if_pos hc] at hq
    rcases List.mem_map.mp hq with ⟨p, hp, hpe⟩
    by_cases hpk : p.1 = k
    · rw [if_pos hpk] at hpe
      exact Or.inr hpe.symm
    · rw [if_neg hpk] at hpe
      exact Or.inl (hpe ▸ hp)
  · rw [if_neg hc] at hq
    rcases List.mem_append.mp hq with h | h
    · exact Or.inl h
    · exact Or.inr (List.mem_singleton.mp h)

theorem requestedDocs_inv (storage : PyStr → Option RawDoc) (jid : PyStr → Option PyStr) :
    ∀ (filenames : List PyStr) (acc : List (PyStr × RawDoc) × List StatusRecord),
      (∀ p ∈ (filenames.foldl (requestedStep storage jid) acc).1,
        p ∈ acc.1 ∨ ∃ d, storage p.1 = some d ∧ pyLower d.ext ∈ ALLOWED_DOC_EXTS) ∧
      (∀ s ∈ (filenames.foldl (requestedStep storage jid) acc).2,
        s ∈ acc.2 ∨ (s.status = "failed".toList ∧
          ¬ ∃ d, storage s.doc = some d ∧ pyLower d.ext ∈ ALLOWED_DOC_EXTS)) := by
  intro filenames
  induction filenames with
  | nil => intro acc; exact ⟨fun x hx => Or.inl hx, fun x hx => Or.inl hx⟩
  | cons n rest ih =>
    intro acc
    rw [List.foldl_cons]
    obtain ⟨ih1, ih2⟩ := ih (requestedStep storage jid acc n)
    constructor
    · intro p hp
      rcases ih1 p hp with hin | hgood
      · unfold requestedStep at hin
        cases hst : storage n with
        | none =>
          rw [hst] at hin
          exact Or.inl hin
        | some d =>
          rw [hst] at hin
          dsimp only at hin
          by_cases hext : pyLower d.ext ∈ ALLOWED_DOC_EXTS
          · rw [if_pos hext] at hin
            rcases mem_dictInsert acc.1 n d p hin with h | h
            · exact Or.inl h
            · refine Or.inr ⟨d, ?_, hext⟩
              rw [h, hst]
          · rw [if_neg hext] at hin
            exact Or.inl hin
      · exact Or.inr hgood
    · intro s hs
      rcases ih2 s hs with hin | hbad
      · unfold requestedStep at hin
        cases hst : storage n with
        | none =>
          rw [hst] at hin
          dsimp only at hin
          rcases List.mem_append.mp hin with h | h
          · exact Or.inl h
          · have hse := List.mem_singleton.mp h
            refine Or.inr ⟨by rw [hse]; rfl, ?_⟩
            rintro ⟨d, hd, _⟩
            rw [hse] at hd
            simp only [failRecord] at hd
            rw [hst] at hd
            exact Option.noConfusion hd
        | some d =>
          rw [hst] at hin
          dsimp only at hin
          by_cases hext : pyLower d.ext ∈ ALLOWED_DOC_EXTS
          · rw [if_pos hext] at hin
            exact Or.inl hin
          · rw [if_neg hext] at hin
            rcases List.mem_append.mp hin with h | h
            · exact Or.inl h
            · have hse := List.mem_singleton.mp h
              refine Or.inr ⟨by rw [hse]; rfl, ?_⟩
              rintro ⟨d2, hd2, hext2⟩
              rw [hse] at hd2
              simp only [failRecord] at hd2
              rw [hst] at hd2
              injection hd2 with hdd
              subst hdd
              exact hext hext2
      · exact Or.inr hbad

/-- Interface of the amended claim C2 for one document of the scheduled
batch: the document's vector-index entries are deleted, its final status is
`completed` with chunk count 0 and a `no_chunks` note, and no status record
for it says `failed`. -/
def vectorizeZeroChunkSpec (parse : PyStr → PyStr → PyStr)
    (storage : PyStr → Option RawDoc)
    (upsertOk : List (PyStr × List DocumentChunk) → Bool)
    (deleteOk : List PyStr → Bool) (refsOk : PyStr → List PyStr → Bool)
    (chunkSize overlap : Nat) (frac : ℚ)
    (entries : List IngestEntry) (name : PyStr) : Prop :=
  name ∈ (run_vectorize_job parse storage upsertOk deleteOk refsOk
    chunkSize overlap frac entries).deletes ∧
  completeRecord (jobIdFor entries name) name 0 (some "no_chunks".toList) ∈
    (run_vectorize_job parse storage upsertOk deleteOk refsOk
      chunkSize overlap frac entries).statuses ∧
  ∀ r ∈ (run_vectorize_job parse storage upsertOk deleteOk refsOk
      chunkSize overlap frac entries).statuses,
    r.doc = name → r.status ≠ "failed".toList

/-- Amended claim C2: provided the shared indexing section raises no
exception (the upsert, the delete and every vector-ref update succeed), a
requested document for which extraction plus chunking yields zero chunks
has its vector-index entries deleted and is reported `completed` with a
`no_chunks` note, never `failed`.  When the section does raise, the
`except` arm fails the whole batch instead — the counterexample. -/
theorem vectorize_zero_chunks_completed (parse : PyStr → PyStr → PyStr)
    (storage : PyStr → Option RawDoc)
    (upsertOk : List (PyStr × List DocumentChunk) → Bool)
    (deleteOk : List PyStr → Bool) (refsOk : PyStr → List PyStr → Bool)
    (chunkSize overlap : Nat) (frac : ℚ)
    (entries : List IngestEntry) (name : PyStr)
    (hmem : name ∈ ((requestedDocs storage (jobIdFor entries)
      (vectorizeFilenames entries)).1.map Prod.fst))
    (hempty : (load_documents parse
        ((requestedDocs storage (jobIdFor entries) (vectorizeFilenames entries)).1.map
          Prod.snd) chunkSize overlap frac).filter (fun c => c.source = name) = [])
    (hup : upsertOk ((docChunkMap parse storage chunkSize overlap frac entries).filter
      fun p => p.2 ≠ []) = true)
    (hdel : deleteOk (((docChunkMap parse storage chunkSize overlap frac entries).filter
      fun p => p.2 = []).map Prod.fst) = true)
    (hrefs : (refsPrefix refsOk ((docChunkMap parse storage chunkSize overlap frac
      entries).map fun p => (p.1, p.2.map DocumentChunk.id))).2 = true) :
    vectorizeZeroChunkSpec parse storage upsertOk deleteOk refsOk
      chunkSize overlap frac entries name := by
  by_cases hfn : vectorizeFilenames entries = []
  · exfalso
    rw [hfn] at hmem
    simp [requestedDocs] at hmem
  have hrq1 : (requestedDocs storage (jobIdFor entries)
      (vectorizeFilenames entries)).1 ≠ [] := by
    intro h
    rw [h] at hmem
    simp at hmem
  obtain ⟨p, hpmem, hp1⟩ := List.mem_map.mp hmem
  have hdcm : (name, ([] : List DocumentChunk)) ∈
      docChunkMap parse storage chunkSize overlap frac entries := by
    unfold docChunkMap
    refine List.mem_map.mpr ⟨p, hpmem, ?_⟩
    rw [hp1, hempty]
  have hupneg : ¬ ((docChunkMap parse storage chunkSize overlap frac entries).filter
      (fun p => p.2 ≠ []) ≠ [] ∧
      upsertOk ((docChunkMap parse storage chunkSize overlap frac entries).filter
        fun p => p.2 ≠ []) = false) := by
    rintro ⟨-, hfalse⟩
    rw [hup] at hfalse
    exact absurd hfalse (by decide)
  have hdelneg : ¬ ((((docChunkMap parse storage chunkSize overlap frac entries).filter
      fun p => p.2 = []).map Prod.fst) ≠ [] ∧
      deleteOk (((docChunkMap parse storage chunkSize overlap frac entries).filter
        fun p => p.2 = []).map Prod.fst) = false) := by
    rintro ⟨-, hfalse⟩
    rw [hdel] at hfalse
    exact absurd hfalse (by decide)
  have hrefsneg : ¬ ((refsPrefix refsOk ((docChunkMap parse storage chunkSize overlap
      frac entries).map fun p => (p.1, p.2.map DocumentChunk.id))).2 = false) := by
    intro hfalse
    rw [hrefs] at hfalse
    exact absurd hfalse (by decide)
  unfold vectorizeZeroChunkSpec run_vectorize_job
  rw [if_neg hfn]
  simp only []
  rw [if_neg hrq1, if_neg hupneg, if_neg hdelneg, if_neg hrefsneg]
  refine ⟨?_, ?_, ?_⟩
  · exact List.mem_map.mpr ⟨(name, []),
      List.mem_filter.mpr ⟨hdcm, by simp⟩, rfl⟩
  · refine List.mem_append.mpr (Or.inr ?_)
    refine List.mem_map.mpr ⟨(name, []), hdcm, ?_⟩
    rfl
  · intro r hr hrdoc
    rcases List.mem_append.mp hr with h | h
    · obtain ⟨hmap, hfailinv⟩ := requestedDocs_inv storage (jobIdFor entries)
        (vectorizeFilenames entries) ([], [])
      rcases hfailinv r h with habs | ⟨_, hnotgood⟩
      · exact absurd habs (List.not_mem_nil r)
      · rcases hmap p hpmem with habs | hgood
        · exact absurd habs (List.not_mem_nil p)
        · rw [hp1] at hgood
          rw [hrdoc] at hnotgood
          exact absurd hgood hnotgood
    · rcases List.mem_map.mp h with ⟨q, _, hq⟩
      have hst : r.status = "completed".toList := by
        rw [← hq]
        by_cases hlen : q.2.length = 0
        · rw [if_pos hlen]; rfl
        · rw [if_neg hlen]; rfl
      rw [hst]
      decide

/-- Witness storage for C2: one `.txt` document whose content is pure
whitespace, so extraction yields zero chunks. -/
def c2storage : PyStr → Option RawDoc := fun n =>
  if n = "b.txt".toList then some ⟨"b.txt".toList, some "   ".toList, ".txt".toList⟩
  else none

/-- Witness batch for C2. -/
def c2entries : List IngestEntry := [⟨some "b.txt".toList, some "j1".toList⟩]

/-- Witness for the amended claim C2: with all section mutations
succeeding, the whitespace-only document is requested, yields zero chunks,
is deleted from the index and completes with the `no_chunks` note. -/
theorem vectorize_zero_chunks_completed_witness :
    ("b.txt".toList ∈ ((requestedDocs c2storage (jobIdFor c2entries)
      (vectorizeFilenames c2entries)).1.map Prod.fst)) ∧
    ((load_documents (fun _ _ => [])
        ((requestedDocs c2storage (jobIdFor c2entries)
          (vectorizeFilenames c2entries)).1.map Prod.snd) 3 1 (3/20)).filter
      (fun c => c.source = "b.txt".toList) = []) ∧
    ((fun _ => true : List (PyStr × List DocumentChunk) → Bool)
      ((docChunkMap (fun _ _ => []) c2storage 3 1 (3/20) c2entries).filter
        fun p => p.2 ≠ []) = true) ∧
    ((fun _ => true : List PyStr → Bool)
      (((docChunkMap (fun _ _ => []) c2storage 3 1 (3/20) c2entries).filter
        fun p => p.2 = []).map Prod.fst) = true) ∧
    ((refsPrefix (fun _ _ => true) ((docChunkMap (fun _ _ => []) c2storage 3 1 (3/20)
      c2entries).map fun p => (p.1, p.2.map DocumentChunk.id))).2 = true) ∧
    vectorizeZeroChunkSpec (fun _ _ => []) c2storage (fun _ => true) (fun _ => true)
      (fun _ _ => true) 3 1 (3/20) c2entries "b.txt".toList :=
  ⟨by decide, by decide, rfl, rfl, by decide,
    vectorize_zero_chunks_completed (fun _ _ => []) c2storage (fun _ => true)
      (fun _ => true) (fun _ _ => true) 3 1 (3/20) c2entries "b.txt".toList
      (by decide) (by decide) rfl rfl (by decide)⟩

/-- Storage for the C2 counterexample: a document with real text alongside
the whitespace-only one, so the batch has a non-empty upsert payload. -/
def c2storage2 : PyStr → Option RawDoc := fun n =>
  if n = "x.txt".toList then some ⟨"x.txt".toList, some "abcd".toList, ".txt".toList⟩
  else if n = "b.txt".toList then some ⟨"b.txt".toList, some "   ".toList, ".txt".toList⟩
  else none

/-- Batch for the C2 counterexample. -/
def c2entries2 : List IngestEntry :=
  [⟨some "x.txt".toList, some "j0".toList⟩, ⟨some "b.txt".toList, some "j1".toList⟩]

/-- Counterexample to claim C2 as stated: when the shared indexing section
raises — here `vectorstore.upsert_documents` fails while upserting the
sibling document `x.txt` — the `except` arm fails every document of the
batch, so the zero-chunk document `b.txt` is reported `failed`, receives no
`completed`/`no_chunks` status, and its pending deletion never runs. -/
theorem vectorize_upsert_failure_marks_failed :
    ((load_documents (fun _ _ => []) ((requestedDocs c2storage2 (jobIdFor c2entries2)
        (vectorizeFilenames c2entries2)).1.map Prod.snd) 3 1 (3/20)).filter
      (fun c => c.source = "b.txt".toList) = []) ∧
    ("b.txt".toList ∈ ((requestedDocs c2storage2 (jobIdFor c2entries2)
      (vectorizeFilenames c2entries2)).1.map Prod.fst)) ∧
    (failRecord (jobIdFor c2entries2 "b.txt".toList) "b.txt".toList
        "索引构建失败".toList ∈
      (run_vectorize_job (fun _ _ => []) c2storage2 (fun _ => false) (fun _ => true)
        (fun _ _ => true) 3 1 (3/20) c2entries2).statuses) ∧
    (completeRecord (jobIdFor c2entries2 "b.txt".toList) "b.txt".toList 0
        (some "no_chunks".toList) ∉
      (run_vectorize_job (fun _ _ => []) c2storage2 (fun _ => false) (fun _ => true)
        (fun _ _ => true) 3 1 (3/20) c2entries2).statuses) ∧
    ("b.txt".toList ∉ (run_vectorize_job (fun _ _ => []) c2storage2 (fun _ => false)
        (fun _ => true) (fun _ _ => true) 3 1 (3/20) c2entries2).deletes) := by
  refine ⟨by decide, by decide, by decide, by decide, by decide⟩

end CampusQA
